import Mathlib

/-!
A shallow embedding of the `chan` library (`chan/chan.py`): CSP-style
channels with optional bounded buffering, closure, timeouts and a
multi-way `chanselect` operator.

Python values are modelled as `Option α` (with `none` playing the role of
Python's `None`); machine state that Python mutates in place (the table of
wish groups, the channel record) is passed explicitly.  Each definition
mirrors one Python function; exceptions become an `Err` code that is
returned alongside the post-state, since the Python code mutates state
before raising.
-/

namespace Chan

/-- The exceptions that can escape the modelled code paths:
`ChanClosed(which)`, `Timeout`, `Empty`, `Full`, the `RuntimeError`
of a double `close`, a failed `assert` in `Wish.fulfill`, Python's
`IndexError` (ring buffer) and `ValueError` (`list.remove` on a missing
element).  `internal` marks model states that cannot arise from the
Python object graph (a wish whose channel id is not in the channel map). -/
inductive Err where
  | empty
  | full
  | chanClosed (which : Nat)
  | timeout
  | doubleClose
  | assertFail
  | indexError
  | valueError
  | internal
  deriving DecidableEq, Repr

/-- `WISH_PRODUCE` / `WISH_CONSUME`, together with the wish's `value`
slot: a produce wish carries the value being sent (a Python value, hence
`Option α`); a consume wish's slot starts as `None` and is written by
`fulfill`. -/
inductive WishKind (α : Type) where
  | produce (v : Option α)
  | consume (res : Option α)
  deriving DecidableEq, Repr

/-- One pending send/receive intent (`class Wish`).  `wid` stands for the
object's identity (used by `list.remove`), `gid` for the identity of its
`WishGroup`, `cid` for the identity of its `chan`. -/
structure Wish (α : Type) where
  wid : Nat
  gid : Nat
  cid : Nat
  kind : WishKind α
  closed : Bool
  deriving DecidableEq, Repr

/-- The fulfilment state of all wish groups: `gid ↦ fulfilled_by` for the
groups whose `fulfilled_by` is not `None`.  A `gid` absent from the table
is an unfulfilled group. -/
def Groups (α : Type) : Type := List (Nat × Wish α)

/-- `group.fulfilled_by` (`None` encoded as table absence). -/
def lookupGroup {α : Type} (gs : Groups α) (g : Nat) : Option (Wish α) :=
  match List.find? (fun p => p.1 == g) gs with
  | some p => some p.2
  | none => none

/-- Recording `group.fulfilled_by = w`.  `Wish.fulfill` only ever runs on
an unfulfilled group, so prepending is an exact model of the update. -/
def setGroup {α : Type} (gs : Groups α) (g : Nat) (w : Wish α) : Groups α :=
  (g, w) :: gs

/-- `Wish.fulfill(value, closed)`: asserts the group is unfulfilled, sets
the wish's `closed` flag, records the group as fulfilled by this wish and
returns the produce value (`None` for a consume wish, whose `value` slot
is overwritten instead). -/
def fulfill {α : Type} (gs : Groups α) (w : Wish α) (value : Option α)
    (closedFlag : Bool) : Except Err (Groups α × Option α) :=
  match lookupGroup gs w.gid with
  | some _ => .error .assertFail
  | none =>
    match w.kind with
    | .produce v =>
      .ok (setGroup gs w.gid { w with closed := closedFlag }, v)
    | .consume _ =>
      .ok (setGroup gs w.gid
        { w with kind := .consume value, closed := closedFlag }, none)

/-- `class RingBuffer`: `buf` is the fixed slot array (`[None] * buflen`),
`next_pop` the head index, `len` the `_len` field.  A slot holding `none`
is either cleared or holds Python `None`; the two are indistinguishable in
the source as well. -/
structure RingBuffer (α : Type) where
  buf : List (Option α)
  next_pop : Nat
  len : Nat
  deriving DecidableEq, Repr

/-- `RingBuffer.cap`. -/
def RingBuffer.cap {α : Type} (rb : RingBuffer α) : Nat := rb.buf.length

/-- `RingBuffer.push`: raises `IndexError` when full, otherwise writes at
`(next_pop + len) % cap` and increments the length. -/
def RingBuffer.push {α : Type} (rb : RingBuffer α) (value : Option α) :
    Except Err (RingBuffer α) :=
  if rb.len = rb.buf.length then .error .indexError
  else
    .ok { rb with
      buf := rb.buf.set ((rb.next_pop + rb.len) % rb.buf.length) value,
      len := rb.len + 1 }

/-- `RingBuffer.pop`: raises `IndexError` when empty, otherwise returns
the slot at `next_pop`, clears it to `None`, advances `next_pop` modulo
the capacity and decrements the length. -/
def RingBuffer.pop {α : Type} (rb : RingBuffer α) :
    Except Err (Option α × RingBuffer α) :=
  if rb.len = 0 then .error .indexError
  else
    .ok (rb.buf.getD rb.next_pop none,
      { rb with
        buf := rb.buf.set rb.next_pop none,
        next_pop := (rb.next_pop + 1) % rb.buf.length,
        len := rb.len - 1 })

/-- `RingBuffer.empty`. -/
def RingBuffer.isEmpty {α : Type} (rb : RingBuffer α) : Bool := rb.len == 0

/-- `RingBuffer.full`. -/
def RingBuffer.isFull {α : Type} (rb : RingBuffer α) : Bool :=
  rb.len == rb.buf.length

/-- The live contents of the buffer, oldest first: slot `(next_pop + i) %
cap` for `i < len`.  This is the abstraction used to state FIFO facts. -/
def RingBuffer.toList {α : Type} (rb : RingBuffer α) : List (Option α) :=
  (List.range rb.len).map
    (fun i => rb.buf.getD ((rb.next_pop + i) % rb.buf.length) none)

/-- Structural well-formedness maintained by the `RingBuffer` code:
the head index is in range (hence the capacity is at least 1) and the
length never exceeds the capacity. -/
def RingBuffer.wf {α : Type} (rb : RingBuffer α) : Prop :=
  rb.next_pop < rb.buf.length ∧ rb.len ≤ rb.buf.length

instance {α : Type} (rb : RingBuffer α) : Decidable rb.wf := by
  unfold RingBuffer.wf; infer_instance

/-- The state owned by one `Chan`: its identity `cid`, the `_closed`
flag, the optional `_buf`, and the two waiting queues
(`_waiting_producers`, `_waiting_consumers`). -/
structure ChanState (α : Type) where
  cid : Nat
  closed : Bool
  buf : Option (RingBuffer α)
  waitingProducers : List (Wish α)
  waitingConsumers : List (Wish α)
  deriving DecidableEq, Repr

/-- `Chan.__init__(buflen)`: a ring buffer of `buflen` cleared slots when
`buflen > 0`, otherwise no buffer.  Total: no input raises. -/
def chanInit (α : Type) (cid : Nat) (buflen : Int) : ChanState α :=
  { cid := cid
    closed := false
    buf := if buflen > 0 then
        some { buf := List.replicate buflen.toNat none, next_pop := 0, len := 0 }
      else none
    waitingProducers := []
    waitingConsumers := [] }

/-- The `closed` property: `self._closed and not self._waiting_producers`. -/
def closedProp {α : Type} (st : ChanState α) : Bool :=
  st.closed && st.waitingProducers.isEmpty

/-- The inner loop `fulfill_waiting_producer` of `Chan._get_nowait`: walk
the waiting-producer queue from the head, discarding wishes whose group is
already fulfilled, fulfil the first live one and return its value (first
component), the remaining queue and the updated group table.  `Empty`
when the queue runs out. -/
def fwp {α : Type} : List (Wish α) → Groups α →
    Except Err (Option α) × List (Wish α) × Groups α
  | [], gs => (.error .empty, [], gs)
  | w :: rest, gs =>
    if (lookupGroup gs w.gid).isSome then fwp rest gs
    else
      match fulfill gs w none false with
      | .ok (gs', v) => (.ok v, rest, gs')
      | .error e => (.error e, w :: rest, gs)

/-- `Chan._get_nowait`: if a non-empty buffer exists, pop its head, try to
cycle one waiting producer's value onto the freed slot (`except Empty:
pass`) and return the popped value; otherwise commit the first live
waiting producer.  Returns the outcome with the updated channel state and
group table. -/
def getNowait {α : Type} (st : ChanState α) (gs : Groups α) :
    Except Err (Option α) × ChanState α × Groups α :=
  match st.buf with
  | some rb =>
    if rb.isEmpty then
      match fwp st.waitingProducers gs with
      | (r, ps', gs') => (r, { st with waitingProducers := ps' }, gs')
    else
      match rb.pop with
      | .error e => (.error e, st, gs)
      | .ok (value, rb') =>
        match fwp st.waitingProducers gs with
        | (.ok produced, ps', gs') =>
          match rb'.push produced with
          | .ok rb'' =>
            (.ok value,
              { st with buf := some rb'', waitingProducers := ps' }, gs')
          | .error e =>
            (.error e,
              { st with buf := some rb', waitingProducers := ps' }, gs')
        | (.error .empty, ps', gs') =>
          (.ok value,
            { st with buf := some rb', waitingProducers := ps' }, gs')
        | (.error e, ps', gs') =>
          (.error e,
            { st with buf := some rb', waitingProducers := ps' }, gs')
  | none =>
    match fwp st.waitingProducers gs with
    | (r, ps', gs') => (r, { st with waitingProducers := ps' }, gs')

/-- The loop of `Chan._put_nowait`, recursing over the waiting-consumer
queue: discard fulfilled consume wishes, give `value` to the first live
one; with the queue exhausted, push into a non-full buffer; `Full`
otherwise. -/
def pnwLoop {α : Type} : List (Wish α) → Groups α → Option α →
    Option (RingBuffer α) →
    Except Err Unit × List (Wish α) × Option (RingBuffer α) × Groups α
  | w :: rest, gs, value, buf =>
    if (lookupGroup gs w.gid).isSome then pnwLoop rest gs value buf
    else
      match fulfill gs w value false with
      | .ok (gs', _) => (.ok (), rest, buf, gs')
      | .error e => (.error e, w :: rest, buf, gs)
  | [], gs, value, some rb =>
    if rb.isFull then (.error .full, [], some rb, gs)
    else
      match rb.push value with
      | .ok rb' => (.ok (), [], some rb', gs)
      | .error e => (.error e, [], some rb, gs)
  | [], gs, _, none => (.error .full, [], none, gs)

/-- `Chan._put_nowait(value)`. -/
def putNowait {α : Type} (st : ChanState α) (gs : Groups α)
    (value : Option α) : Except Err Unit × ChanState α × Groups α :=
  match pnwLoop st.waitingConsumers gs value st.buf with
  | (r, cs', buf', gs') =>
    (r, { st with waitingConsumers := cs', buf := buf' }, gs')

/-- The sweep loop of `Chan.close`: walk the snapshot of both queues and
fulfil, with the closed flag set, every wish whose group is still
unfulfilled. -/
def closeSweep {α : Type} : Groups α → List (Wish α) → Except Err (Groups α)
  | gs, [] => .ok gs
  | gs, w :: rest =>
    if (lookupGroup gs w.gid).isSome then closeSweep gs rest
    else
      match fulfill gs w none true with
      | .ok (gs', _) => closeSweep gs' rest
      | .error e => .error e

/-- `Chan.close`: `RuntimeError` (`doubleClose`) when already closed;
otherwise set `_closed`, snapshot `_waiting_producers + _waiting_consumers`
and run the sweep. -/
def closeChan {α : Type} (st : ChanState α) (gs : Groups α) :
    Except Err Unit × ChanState α × Groups α :=
  if st.closed then (.error .doubleClose, st, gs)
  else
    match closeSweep gs (st.waitingProducers ++ st.waitingConsumers) with
    | .ok gs' => (.ok (), { st with closed := true }, gs')
    | .error e => (.error e, { st with closed := true }, gs)

/-- The single `value` field of a Python `Wish` (outgoing value of a
produce wish, result slot of a consume wish). -/
def wishValue {α : Type} (w : Wish α) : Option α :=
  match w.kind with
  | .produce v => v
  | .consume r => r

/-- Python's `list.remove` keyed on wish identity: removes the first
occurrence, raises `ValueError` when the element is absent. -/
def pyRemoveWish {α : Type} : List (Wish α) → Nat →
    Except Err (List (Wish α))
  | [], _ => .error .valueError
  | w :: rest, wid =>
    if w.wid == wid then .ok rest
    else
      match pyRemoveWish rest wid with
      | .ok rest' => .ok (w :: rest')
      | .error e => .error e

/-- `timeout is not None and timeout <= 0`. -/
def timeoutNonPos (timeout : Option Int) : Bool :=
  match timeout with
  | none => false
  | some t => t ≤ 0

/-- Outcome of the lock-held first phase of a blocking `get`/`put`:
immediate value, `ChanClosed`, `Timeout`, a wish enqueued to wait on, or a
propagated internal exception. -/
inductive BlockRes (α : Type) where
  | done (v : Option α)
  | errClosed (which : Nat)
  | errTimeout
  | blocked (w : Wish α)
  | errOther (e : Err)
  deriving DecidableEq, Repr

/-- The part of `Chan.get` run under the channel lock: try `_get_nowait`;
on `Empty`, fail `ChanClosed` if the channel is closed, fail `Timeout` if
the timeout is non-positive, else enqueue a fresh consume wish (with fresh
group id `gid` and identity `wid`). -/
def getPhase1 {α : Type} (st : ChanState α) (gs : Groups α)
    (timeout : Option Int) (gid wid : Nat) :
    BlockRes α × ChanState α × Groups α :=
  match getNowait st gs with
  | (.ok v, st', gs') => (.done v, st', gs')
  | (.error .empty, st', gs') =>
    if st'.closed then (.errClosed st'.cid, st', gs')
    else if timeoutNonPos timeout then (.errTimeout, st', gs')
    else
      let w : Wish α := ⟨wid, gid, st'.cid, .consume none, false⟩
      (.blocked w,
        { st' with waitingConsumers := st'.waitingConsumers ++ [w] }, gs')
  | (.error e, st', gs') => (.errOther e, st', gs')

/-- The part of `Chan.put` run under the channel lock: fail `ChanClosed`
if closed (before anything else); try `_put_nowait`; on `Full`, fail
`Timeout` if the timeout is non-positive, else enqueue a fresh produce
wish. -/
def putPhase1 {α : Type} (st : ChanState α) (gs : Groups α)
    (value : Option α) (timeout : Option Int) (gid wid : Nat) :
    BlockRes α × ChanState α × Groups α :=
  if st.closed then (.errClosed st.cid, st, gs)
  else
    match putNowait st gs value with
    | (.ok _, st', gs') => (.done none, st', gs')
    | (.error .full, st', gs') =>
      if timeoutNonPos timeout then (.errTimeout, st', gs')
      else
        let w : Wish α := ⟨wid, gid, st'.cid, .produce value, false⟩
        (.blocked w,
          { st' with waitingProducers := st'.waitingProducers ++ [w] }, gs')
    | (.error e, st', gs') => (.errOther e, st', gs')

/-- The deadline branch of `Chan.get`'s wait loop, entered when
`time.time() >= timeout_deadline`: if the group is still unfulfilled, run
`self._waiting_consumers.remove(wish)` — an unguarded `list.remove` that
raises `ValueError` when the wish is absent — and raise `Timeout`;
otherwise the loop exits and the committed result is produced
(`ChanClosed` if the wish was fulfilled with the closed flag, else the
received value). -/
def getDeadlineStep {α : Type} (st : ChanState α) (gs : Groups α)
    (w : Wish α) : Except Err (Option α) × ChanState α :=
  match lookupGroup gs w.gid with
  | none =>
    match pyRemoveWish st.waitingConsumers w.wid with
    | .ok cs' => (.error .timeout, { st with waitingConsumers := cs' })
    | .error e => (.error e, st)
  | some w' =>
    (if w'.closed then .error (.chanClosed w.cid) else .ok (wishValue w'),
      st)

/-- The deadline branch of `Chan.put`'s wait loop (same shape as
`getDeadlineStep`, on the producer queue; success carries no value). -/
def putDeadlineStep {α : Type} (st : ChanState α) (gs : Groups α)
    (w : Wish α) : Except Err Unit × ChanState α :=
  match lookupGroup gs w.gid with
  | none =>
    match pyRemoveWish st.waitingProducers w.wid with
    | .ok ps' => (.error .timeout, { st with waitingProducers := ps' })
    | .error e => (.error e, st)
  | some w' =>
    (if w'.closed then .error (.chanClosed w.cid) else .ok (), st)

/-- The exit of `Chan.put`'s wait loop once the group is fulfilled
(`while not group.fulfilled` has ended): `put` raises `ChanClosed` when
the wish was fulfilled with the closed flag and returns normally
otherwise.  `internal` marks the unreachable still-unfulfilled case. -/
def putWaitExit {α : Type} (gs : Groups α) (w : Wish α) : Except Err Unit :=
  match lookupGroup gs w.gid with
  | none => .error .internal
  | some w' => if w'.closed then .error (.chanClosed w.cid) else .ok ()

/-- `wish.chan` resolution in `chanselect`: channels identified by `cid`
inside a list of channel states. -/
def lookupChan {α : Type} (cm : List (ChanState α)) (c : Nat) :
    Option (ChanState α) :=
  List.find? (fun st => st.cid == c) cm

/-- Writing back one channel's updated state. -/
def updateChan {α : Type} (cm : List (ChanState α)) (st' : ChanState α) :
    List (ChanState α) :=
  cm.map (fun st => if st.cid == st'.cid then st' else st)

/-- The lock-held first loop of `chanselect`, over the wishes in their
(already shuffled) order: for each wish, first check `wish.chan._closed`
and raise `ChanClosed(which)`, then attempt `_get_nowait`/`_put_nowait`,
returning `(chan, value)` / `(chan, None)` on the first success; `Empty`
and `Full` move on to the next wish (keeping any queue mutation the failed
attempt made).  `.ok none` means no wish was actionable. -/
def chanselectPass {α : Type} (cm : List (ChanState α)) (gs : Groups α) :
    List (Wish α) →
    Except Err (Option (Nat × Option α)) × List (ChanState α) × Groups α
  | [] => (.ok none, cm, gs)
  | w :: rest =>
    match lookupChan cm w.cid with
    | none => (.error .internal, cm, gs)
    | some st =>
      if st.closed then (.error (.chanClosed w.cid), cm, gs)
      else
        match w.kind with
        | .consume _ =>
          match getNowait st gs with
          | (.ok v, st', gs') => (.ok (some (w.cid, v)), updateChan cm st', gs')
          | (.error .empty, st', gs') => chanselectPass (updateChan cm st') gs' rest
          | (.error e, st', gs') => (.error e, updateChan cm st', gs')
        | .produce v =>
          match putNowait st gs v with
          | (.ok _, st', gs') => (.ok (some (w.cid, none)), updateChan cm st', gs')
          | (.error .full, st', gs') => chanselectPass (updateChan cm st') gs' rest
          | (.error e, st', gs') => (.error e, updateChan cm st', gs')

/-- `list.remove` wrapped in `try/except ValueError: pass`, as the
`chanselect` sweep uses it. -/
def tolerantRemove {α : Type} (ws : List (Wish α)) (wid : Nat) :
    List (Wish α) :=
  match pyRemoveWish ws wid with
  | .ok ws' => ws'
  | .error _ => ws

/-- Removing one select wish from its channel's queue, tolerating
absence. -/
def removeSelWish {α : Type} (cm : List (ChanState α)) (w : Wish α) :
    List (ChanState α) :=
  cm.map (fun st =>
    if st.cid == w.cid then
      match w.kind with
      | .consume _ =>
        { st with waitingConsumers := tolerantRemove st.waitingConsumers w.wid }
      | .produce _ =>
        { st with waitingProducers := tolerantRemove st.waitingProducers w.wid }
    else st)

/-- The final phase of `chanselect` after the wait: remove every wish of
the group from its queue (tolerating absence), then inspect
`group.fulfilled_by`: `Timeout` when still `None`, `ChanClosed` when the
fulfilled wish carries the closed flag, else `(chan, value)`. -/
def chanselectSweep {α : Type} (cm : List (ChanState α)) (gs : Groups α)
    (ws : List (Wish α)) (gid : Nat) :
    Except Err (Nat × Option α) × List (ChanState α) :=
  let cm' := ws.foldl removeSelWish cm
  match lookupGroup gs gid with
  | none => (.error .timeout, cm')
  | some w' =>
    (if w'.closed then .error (.chanClosed w'.cid)
     else .ok (w'.cid, wishValue w'), cm')

/-! ### Helper lemmas: the group table and `fulfill` -/

/-- The wish a commit path records for `w` when fulfilling it with
`value` and closed flag `c` (the body of `Wish.fulfill`). -/
def commitWish {α : Type} (w : Wish α) (value : Option α) (c : Bool) :
    Wish α :=
  match w.kind with
  | .produce _ => { w with closed := c }
  | .consume _ => { w with kind := .consume value, closed := c }

/-- The value `Wish.fulfill` returns to the committing peer. -/
def fulfillRet {α : Type} (w : Wish α) : Option α :=
  match w.kind with
  | .produce v => v
  | .consume _ => none

theorem lookupGroup_setGroup_self {α : Type} (gs : Groups α) (g : Nat)
    (w : Wish α) : lookupGroup (setGroup gs g w) g = some w := by
  simp [lookupGroup, setGroup, List.find?]

theorem lookupGroup_setGroup_ne {α : Type} (gs : Groups α) (g g' : Nat)
    (w : Wish α) (h : g' ≠ g) :
    lookupGroup (setGroup gs g w) g' = lookupGroup gs g' := by
  simp only [lookupGroup, setGroup, List.find?]
  have : (g == g') = false := by simp [Ne.symm h]
  simp [this]

theorem fulfill_eq_of_none {α : Type} (gs : Groups α) (w : Wish α)
    (value : Option α) (c : Bool) (h : lookupGroup gs w.gid = none) :
    fulfill gs w value c =
      .ok (setGroup gs w.gid (commitWish w value c), fulfillRet w) := by
  unfold fulfill
  rw [h]
  cases hk : w.kind <;> simp [commitWish, fulfillRet, hk]

theorem fulfill_eq_of_some {α : Type} (gs : Groups α) (w : Wish α)
    (value : Option α) (c : Bool) (h : (lookupGroup gs w.gid).isSome) :
    fulfill gs w value c = .error .assertFail := by
  unfold fulfill
  obtain ⟨w', hw'⟩ := Option.isSome_iff_exists.mp h
  rw [hw']

/-- `gs'` keeps every commitment recorded in `gs`. -/
def preservesGroups {α : Type} (gs gs' : Groups α) : Prop :=
  ∀ g w, lookupGroup gs g = some w → lookupGroup gs' g = some w

theorem preservesGroups_refl {α : Type} (gs : Groups α) :
    preservesGroups gs gs := fun _ _ h => h

theorem preservesGroups_trans {α : Type} {gs₁ gs₂ gs₃ : Groups α}
    (h₁ : preservesGroups gs₁ gs₂) (h₂ : preservesGroups gs₂ gs₃) :
    preservesGroups gs₁ gs₃ := fun g w h => h₂ g w (h₁ g w h)

theorem preservesGroups_setGroup {α : Type} (gs : Groups α) (g : Nat)
    (w : Wish α) (h : lookupGroup gs g = none) :
    preservesGroups gs (setGroup gs g w) := by
  intro g' w' hw'
  rcases eq_or_ne g' g with rfl | hne
  · rw [h] at hw'; exact absurd hw' (by simp)
  · rw [lookupGroup_setGroup_ne gs g g' w hne]; exact hw'

/-! ### Helper lemmas: `fwp` (the loop of `_get_nowait`) -/

theorem fwp_all_dead {α : Type} (ps : List (Wish α)) (gs : Groups α)
    (h : ∀ w ∈ ps, (lookupGroup gs w.gid).isSome) :
    fwp ps gs = (.error .empty, [], gs) := by
  induction ps with
  | nil => rfl
  | cons w rest ih =>
    have hw : (lookupGroup gs w.gid).isSome := h w (by simp)
    simp only [fwp, hw, if_true]
    exact ih fun u hu => h u (by simp [hu])

theorem fwp_commit {α : Type} (dead : List (Wish α)) (w : Wish α)
    (rest : List (Wish α)) (gs : Groups α)
    (hdead : ∀ d ∈ dead, (lookupGroup gs d.gid).isSome)
    (hw : lookupGroup gs w.gid = none) :
    fwp (dead ++ w :: rest) gs =
      (.ok (fulfillRet w), rest, setGroup gs w.gid (commitWish w none false)) := by
  induction dead with
  | nil =>
    simp only [List.nil_append, fwp, hw, Option.isSome_none,
      Bool.false_eq_true, if_false, fulfill_eq_of_none gs w none false hw]
  | cons d ds ih =>
    have hd : (lookupGroup gs d.gid).isSome := hdead d (by simp)
    simp only [List.cons_append, fwp, hd, if_true]
    exact ih fun u hu => hdead u (by simp [hu])

theorem fwp_error {α : Type} (ps : List (Wish α)) (gs : Groups α) (e : Err)
    (h : (fwp ps gs).1 = .error e) : e = .empty := by
  induction ps with
  | nil => simpa [fwp, eq_comm] using h
  | cons w rest ih =>
    by_cases hw : (lookupGroup gs w.gid).isSome
    · simp only [fwp, hw, if_true] at h; exact ih h
    · rw [Option.not_isSome_iff_eq_none] at hw
      simp [fwp, hw, fulfill_eq_of_none gs w none false hw] at h

theorem fwp_empty_iff {α : Type} (ps : List (Wish α)) (gs : Groups α) :
    (fwp ps gs).1 = .error .empty ↔
      ∀ w ∈ ps, (lookupGroup gs w.gid).isSome := by
  constructor
  · intro h w hw
    induction ps with
    | nil => simp at hw
    | cons u rest ih =>
      by_cases hu : (lookupGroup gs u.gid).isSome
      · rcases List.mem_cons.mp hw with rfl | hmem
        · exact hu
        · simp only [fwp, hu, if_true] at h
          exact ih h hmem
      · rw [Option.not_isSome_iff_eq_none] at hu
        simp [fwp, hu, fulfill_eq_of_none gs u none false hu] at h
  · intro h
    rw [fwp_all_dead ps gs h]

theorem fwp_preserves {α : Type} (ps : List (Wish α)) (gs : Groups α) :
    preservesGroups gs (fwp ps gs).2.2 := by
  induction ps with
  | nil => exact preservesGroups_refl gs
  | cons w rest ih =>
    by_cases hw : (lookupGroup gs w.gid).isSome
    · simpa only [fwp, hw, if_true] using ih
    · rw [Option.not_isSome_iff_eq_none] at hw
      simp only [fwp, hw, Option.isSome_none, Bool.false_eq_true, if_false,
        fulfill_eq_of_none gs w none false hw]
      exact preservesGroups_setGroup gs w.gid _ hw

/-! ### Helper lemmas: `pnwLoop` (the loop of `_put_nowait`) -/

theorem pnwLoop_error {α : Type} (cs : List (Wish α)) (gs : Groups α)
    (value : Option α) (buf : Option (RingBuffer α)) (e : Err)
    (h : (pnwLoop cs gs value buf).1 = .error e) : e = .full := by
  induction cs with
  | nil =>
    cases buf with
    | none => simpa [pnwLoop, eq_comm] using h
    | some rb =>
      by_cases hf : rb.isFull
      · simpa [pnwLoop, hf, eq_comm] using h
      · have hlen : ¬ rb.len = rb.buf.length := by
          simpa [RingBuffer.isFull] using hf
        simp [pnwLoop, hf, RingBuffer.push, hlen] at h
  | cons w rest ih =>
    by_cases hw : (lookupGroup gs w.gid).isSome
    · simp only [pnwLoop, hw, if_true] at h; exact ih h
    · rw [Option.not_isSome_iff_eq_none] at hw
      simp [pnwLoop, hw, fulfill_eq_of_none gs w value false hw] at h

theorem pnwLoop_preserves {α : Type} (cs : List (Wish α)) (gs : Groups α)
    (value : Option α) (buf : Option (RingBuffer α)) :
    preservesGroups gs (pnwLoop cs gs value buf).2.2.2 := by
  induction cs with
  | nil =>
    cases buf with
    | none => exact preservesGroups_refl gs
    | some rb =>
      by_cases hf : rb.isFull
      · simpa [pnwLoop, hf] using preservesGroups_refl gs
      · have hlen : ¬ rb.len = rb.buf.length := by
          simpa [RingBuffer.isFull] using hf
        simpa [pnwLoop, hf, RingBuffer.push, hlen] using preservesGroups_refl gs
  | cons w rest ih =>
    by_cases hw : (lookupGroup gs w.gid).isSome
    · simpa only [pnwLoop, hw, if_true] using ih
    · rw [Option.not_isSome_iff_eq_none] at hw
      simp only [pnwLoop, hw, Option.isSome_none, Bool.false_eq_true,
        if_false, fulfill_eq_of_none gs w value false hw]
      exact preservesGroups_setGroup gs w.gid _ hw

theorem putNowait_error {α : Type} (st : ChanState α) (gs : Groups α)
    (value : Option α) (e : Err)
    (h : (putNowait st gs value).1 = .error e) : e = .full := by
  unfold putNowait at h
  exact pnwLoop_error st.waitingConsumers gs value st.buf e h

theorem putNowait_preserves {α : Type} (st : ChanState α) (gs : Groups α)
    (value : Option α) :
    preservesGroups gs (putNowait st gs value).2.2 := by
  unfold putNowait
  exact pnwLoop_preserves st.waitingConsumers gs value st.buf

theorem putNowait_cid_closed {α : Type} (st : ChanState α) (gs : Groups α)
    (value : Option α) :
    (putNowait st gs value).2.1.cid = st.cid ∧
      (putNowait st gs value).2.1.closed = st.closed := by
  unfold putNowait
  exact ⟨rfl, rfl⟩

/-! ### Helper lemmas: `getNowait` -/

theorem getNowait_cid_closed {α : Type} (st : ChanState α) (gs : Groups α) :
    (getNowait st gs).2.1.cid = st.cid ∧
      (getNowait st gs).2.1.closed = st.closed := by
  unfold getNowait
  split
  · split
    · exact ⟨rfl, rfl⟩
    · split
      · exact ⟨rfl, rfl⟩
      · split
        · split
          · exact ⟨rfl, rfl⟩
          · exact ⟨rfl, rfl⟩
        · exact ⟨rfl, rfl⟩
        · exact ⟨rfl, rfl⟩
  · exact ⟨rfl, rfl⟩

/-- Reduction of `getNowait` when no buffer is present. -/
theorem getNowait_buf_none {α : Type} (st : ChanState α) (gs : Groups α)
    (h : st.buf = none) :
    getNowait st gs = ((fwp st.waitingProducers gs).1,
      { st with waitingProducers := (fwp st.waitingProducers gs).2.1 },
      (fwp st.waitingProducers gs).2.2) := by
  unfold getNowait
  rw [h]

/-- Reduction of `getNowait` when the buffer is present but empty. -/
theorem getNowait_buf_empty {α : Type} (st : ChanState α) (gs : Groups α)
    (rb : RingBuffer α) (hb : st.buf = some rb) (he : rb.isEmpty = true) :
    getNowait st gs = ((fwp st.waitingProducers gs).1,
      { st with waitingProducers := (fwp st.waitingProducers gs).2.1 },
      (fwp st.waitingProducers gs).2.2) := by
  unfold getNowait
  rw [hb]
  simp only [he, if_true]

/-- Reduction of `getNowait` when the buffer is present and non-empty. -/
theorem getNowait_buf_nonempty {α : Type} (st : ChanState α)
    (gs : Groups α) (rb : RingBuffer α) (hb : st.buf = some rb)
    (he : rb.isEmpty = false) :
    getNowait st gs =
      match rb.pop with
      | .error e => (.error e, st, gs)
      | .ok (value, rb') =>
        match fwp st.waitingProducers gs with
        | (.ok produced, ps', gs') =>
          match rb'.push produced with
          | .ok rb'' =>
            (.ok value,
              { st with buf := some rb'', waitingProducers := ps' }, gs')
          | .error e =>
            (.error e,
              { st with buf := some rb', waitingProducers := ps' }, gs')
        | (.error .empty, ps', gs') =>
          (.ok value,
            { st with buf := some rb', waitingProducers := ps' }, gs')
        | (.error e, ps', gs') =>
          (.error e,
            { st with buf := some rb', waitingProducers := ps' }, gs') := by
  unfold getNowait
  rw [hb]
  simp only [he, Bool.false_eq_true, if_false]

/-- Successful `pop` in explicit form. -/
theorem pop_eq_of_ne_zero {α : Type} (rb : RingBuffer α)
    (h : rb.len ≠ 0) :
    rb.pop = .ok (rb.buf.getD rb.next_pop none,
      { rb with
        buf := rb.buf.set rb.next_pop none,
        next_pop := (rb.next_pop + 1) % rb.buf.length,
        len := rb.len - 1 }) := by
  unfold RingBuffer.pop
  simp [h]

/-- Successful `push` in explicit form. -/
theorem push_eq_of_ne {α : Type} (rb : RingBuffer α) (value : Option α)
    (h : rb.len ≠ rb.buf.length) :
    rb.push value = .ok { rb with
      buf := rb.buf.set ((rb.next_pop + rb.len) % rb.buf.length) value,
      len := rb.len + 1 } := by
  unfold RingBuffer.push
  simp [h]

theorem push_error {α : Type} (rb : RingBuffer α) (value : Option α)
    (e : Err) (h : rb.push value = .error e) : e = .indexError := by
  unfold RingBuffer.push at h
  by_cases hl : rb.len = rb.buf.length <;> simp [hl] at h
  exact h.symm

theorem pop_error {α : Type} (rb : RingBuffer α) (e : Err)
    (h : rb.pop = .error e) : e = .indexError := by
  unfold RingBuffer.pop at h
  by_cases hl : rb.len = 0 <;> simp [hl] at h
  exact h.symm

theorem getNowait_error {α : Type} (st : ChanState α) (gs : Groups α)
    (e : Err) (h : (getNowait st gs).1 = .error e) :
    e = .empty ∨ e = .indexError := by
  rcases hb : st.buf with _ | rb
  · rw [getNowait_buf_none st gs hb] at h
    exact Or.inl (fwp_error _ _ _ h)
  · by_cases he : rb.isEmpty = true
    · rw [getNowait_buf_empty st gs rb hb he] at h
      exact Or.inl (fwp_error _ _ _ h)
    · rw [Bool.not_eq_true] at he
      rw [getNowait_buf_nonempty st gs rb hb he] at h
      rcases hp : rb.pop with e' | ⟨v, rb'⟩ <;> rw [hp] at h
      · simp at h
        exact Or.inr (h ▸ pop_error rb e' hp)
      · rcases hf : fwp st.waitingProducers gs with ⟨r, ps', gs'⟩
        rw [hf] at h
        rcases r with e'' | produced
        · have he'' : e'' = .empty :=
            fwp_error st.waitingProducers gs e'' (by rw [hf])
          subst he''
          simp at h
        · dsimp only at h
          rcases hpu : rb'.push produced with e₃ | rb'' <;> rw [hpu] at h <;>
            simp at h
          exact Or.inr (h ▸ push_error rb' produced e₃ hpu)

theorem getNowait_preserves {α : Type} (st : ChanState α) (gs : Groups α) :
    preservesGroups gs (getNowait st gs).2.2 := by
  rcases hb : st.buf with _ | rb
  · rw [getNowait_buf_none st gs hb]
    exact fwp_preserves _ _
  · by_cases he : rb.isEmpty = true
    · rw [getNowait_buf_empty st gs rb hb he]
      exact fwp_preserves _ _
    · rw [Bool.not_eq_true] at he
      rw [getNowait_buf_nonempty st gs rb hb he]
      rcases hp : rb.pop with e' | ⟨v, rb'⟩
      · exact preservesGroups_refl gs
      · rcases hf : fwp st.waitingProducers gs with ⟨r, ps', gs'⟩
        have hpres : preservesGroups gs gs' := by
          have := fwp_preserves st.waitingProducers gs
          rw [hf] at this
          exact this
        rcases r with e'' | produced
        · have he'' : e'' = .empty :=
            fwp_error st.waitingProducers gs e'' (by rw [hf])
          subst he''
          exact hpres
        · dsimp only
          rcases hpu : rb'.push produced with e₃ | rb'' <;> exact hpres

/-! ### Helper lemmas: the ring buffer -/

theorem mod_index_ne (B p i l : Nat) (hi : i < l) (hl : l < B) :
    (p + i) % B ≠ (p + l) % B := by
  intro h
  have hm : i ≡ l [MOD B] := Nat.ModEq.add_left_cancel (Nat.ModEq.refl p) h
  have hil : i % B = l % B := hm
  rw [Nat.mod_eq_of_lt (lt_trans hi hl), Nat.mod_eq_of_lt hl] at hil
  exact absurd hil (Nat.ne_of_lt hi)

theorem getD_set_ne {γ : Type} (l : List γ) (i j : Nat) (a d : γ)
    (h : i ≠ j) : (l.set i a).getD j d = l.getD j d := by
  simp [List.getD_eq_getElem?_getD, List.getElem?_set_ne h]

theorem getD_set_self {γ : Type} (l : List γ) (i : Nat) (a d : γ)
    (h : i < l.length) : (l.set i a).getD i d = a := by
  simp [List.getD_eq_getElem?_getD, List.getElem?_set_eq_of_lt a h]

theorem toList_length {α : Type} (rb : RingBuffer α) :
    rb.toList.length = rb.len := by
  simp [RingBuffer.toList]

/-- `push` onto a well-formed non-full buffer appends to the abstract
contents. -/
theorem toList_push {α : Type} (rb : RingBuffer α) (v : Option α)
    (rb' : RingBuffer α) (hwf : rb.wf) (hpush : rb.push v = .ok rb') :
    rb'.toList = rb.toList ++ [v] ∧ rb'.wf ∧ rb'.len = rb.len + 1 ∧
      rb'.next_pop = rb.next_pop := by
  obtain ⟨hp, hl⟩ := hwf
  have hne : rb.len ≠ rb.buf.length := by
    intro hc
    rw [RingBuffer.push, if_pos hc] at hpush
    cases hpush
  have hlt : rb.len < rb.buf.length := lt_of_le_of_ne hl hne
  rw [push_eq_of_ne rb v hne] at hpush
  cases hpush
  have hlen : (rb.buf.set ((rb.next_pop + rb.len) % rb.buf.length) v).length
      = rb.buf.length := by simp
  refine ⟨?_, ⟨by simpa [hlen] using hp, by simpa [hlen] using hlt⟩, rfl, rfl⟩
  unfold RingBuffer.toList
  simp only [hlen]
  rw [List.range_succ, List.map_append]
  congr 1
  · refine List.map_congr_left ?_
    intro i hi
    rw [List.mem_range] at hi
    exact getD_set_ne _ _ _ _ _
      (Ne.symm (mod_index_ne rb.buf.length rb.next_pop i rb.len hi hlt))
  · simp only [List.map_cons, List.map_nil]
    congr 1
    exact getD_set_self _ _ _ _
      (Nat.mod_lt _ (Nat.lt_of_le_of_lt (Nat.zero_le _) hp))

/-- `pop` from a well-formed non-empty buffer takes the abstract head and
clears the popped slot. -/
theorem toList_pop {α : Type} (rb : RingBuffer α) (v : Option α)
    (rb' : RingBuffer α) (hwf : rb.wf) (hpop : rb.pop = .ok (v, rb')) :
    v = rb.toList.getD 0 none ∧ rb'.toList = rb.toList.drop 1 ∧ rb'.wf ∧
      rb'.len = rb.len - 1 ∧ rb'.buf.getD rb.next_pop none = none := by
  obtain ⟨hp, hl⟩ := hwf
  have hB : 0 < rb.buf.length := Nat.lt_of_le_of_lt (Nat.zero_le _) hp
  have hne : rb.len ≠ 0 := by
    intro hc
    rw [RingBuffer.pop, if_pos hc] at hpop
    cases hpop
  rw [pop_eq_of_ne_zero rb hne] at hpop
  simp only [Except.ok.injEq, Prod.mk.injEq] at hpop
  obtain ⟨hv, hrb'⟩ := hpop
  subst hv
  subst hrb'
  have hlen : (rb.buf.set rb.next_pop none).length = rb.buf.length := by simp
  refine ⟨?_, ?_, ⟨by simpa [hlen] using Nat.mod_lt _ hB,
      by simpa [hlen] using Nat.le_trans (Nat.sub_le _ _) hl⟩, rfl,
      getD_set_self _ _ _ _ hp⟩
  · unfold RingBuffer.toList
    have h0 : 0 < rb.len := Nat.pos_of_ne_zero hne
    obtain ⟨m, hm⟩ : ∃ m, rb.len = m + 1 :=
      ⟨rb.len - 1, (Nat.succ_pred_eq_of_ne_zero hne).symm⟩
    rw [hm, List.range_succ_eq_map]
    simp [Nat.mod_eq_of_lt hp]
  · unfold RingBuffer.toList
    simp only [hlen]
    obtain ⟨m, hm⟩ : ∃ m, rb.len = m + 1 :=
      ⟨rb.len - 1, (Nat.succ_pred_eq_of_ne_zero hne).symm⟩
    rw [hm, List.range_succ_eq_map]
    simp only [Nat.add_sub_cancel, List.map_cons, List.drop_succ_cons,
      List.drop_zero, List.map_map]
    refine List.map_congr_left ?_
    intro i hi
    rw [List.mem_range] at hi
    have h1i : 1 + i < rb.buf.length :=
      Nat.lt_of_lt_of_le (by omega) (hm ▸ hl)
    have hstep : ((rb.next_pop + 1) % rb.buf.length + i) % rb.buf.length
        = (rb.next_pop + (1 + i)) % rb.buf.length := by
      rw [Nat.mod_add_mod, Nat.add_assoc]
    simp only [Function.comp_apply, hstep]
    have hne2 : (rb.next_pop + (1 + i)) % rb.buf.length ≠ rb.next_pop := by
      intro hc
      have : (rb.next_pop + 0) % rb.buf.length
          = (rb.next_pop + (1 + i)) % rb.buf.length := by
        rw [Nat.add_zero, Nat.mod_eq_of_lt hp, hc]
      exact mod_index_ne rb.buf.length rb.next_pop 0 (1 + i) (by omega) h1i this
    rw [getD_set_ne _ _ _ _ _ (Ne.symm hne2), Nat.add_comm 1 i]

/-! ### Helper lemmas: `closeSweep` -/

theorem commitWish_closed {α : Type} (w : Wish α) (value : Option α)
    (c : Bool) : (commitWish w value c).closed = c := by
  unfold commitWish
  split <;> rfl

theorem closeSweep_preserves {α : Type} (ws : List (Wish α)) (gs : Groups α)
    (gs' : Groups α) (h : closeSweep gs ws = .ok gs') :
    preservesGroups gs gs' := by
  induction ws generalizing gs with
  | nil =>
    simp only [closeSweep] at h
    cases h
    exact preservesGroups_refl gs'
  | cons w rest ih =>
    by_cases hw : (lookupGroup gs w.gid).isSome
    · simp only [closeSweep, hw, if_true] at h
      exact ih gs h
    · rw [Option.not_isSome_iff_eq_none] at hw
      simp only [closeSweep, hw, Option.isSome_none, Bool.false_eq_true,
        if_false, fulfill_eq_of_none gs w none true hw] at h
      exact preservesGroups_trans (preservesGroups_setGroup gs w.gid _ hw)
        (ih _ h)

theorem closeSweep_ok {α : Type} (ws : List (Wish α)) (gs : Groups α) :
    ∃ gs', closeSweep gs ws = .ok gs' := by
  induction ws generalizing gs with
  | nil => exact ⟨gs, rfl⟩
  | cons w rest ih =>
    by_cases hw : (lookupGroup gs w.gid).isSome
    · simpa only [closeSweep, hw, if_true] using ih gs
    · rw [Option.not_isSome_iff_eq_none] at hw
      simpa only [closeSweep, hw, Option.isSome_none, Bool.false_eq_true,
        if_false, fulfill_eq_of_none gs w none true hw] using ih _

theorem closeSweep_isSome {α : Type} (ws : List (Wish α)) (gs : Groups α)
    (gs' : Groups α) (h : closeSweep gs ws = .ok gs') :
    ∀ w ∈ ws, (lookupGroup gs' w.gid).isSome := by
  induction ws generalizing gs with
  | nil => intro w hw; simp at hw
  | cons w rest ih =>
    intro u hu
    by_cases hw : (lookupGroup gs w.gid).isSome
    · simp only [closeSweep, hw, if_true] at h
      rcases List.mem_cons.mp hu with rfl | hmem
      · obtain ⟨x, hx⟩ := Option.isSome_iff_exists.mp hw
        rw [closeSweep_preserves rest gs gs' h u.gid x hx]
        rfl
      · exact ih gs h u hmem
    · rw [Option.not_isSome_iff_eq_none] at hw
      simp only [closeSweep, hw, Option.isSome_none, Bool.false_eq_true,
        if_false, fulfill_eq_of_none gs w none true hw] at h
      rcases List.mem_cons.mp hu with rfl | hmem
      · rw [closeSweep_preserves rest _ gs' h u.gid (commitWish u none true)
          (lookupGroup_setGroup_self gs u.gid _)]
        rfl
      · exact ih _ h u hmem

theorem closeSweep_closed {α : Type} (ws : List (Wish α)) (gs : Groups α)
    (gs' : Groups α) (h : closeSweep gs ws = .ok gs') :
    ∀ g cw, lookupGroup gs' g = some cw →
      lookupGroup gs g = some cw ∨ cw.closed = true := by
  induction ws generalizing gs with
  | nil =>
    simp only [closeSweep] at h
    cases h
    intro g cw hcw
    exact Or.inl hcw
  | cons w rest ih =>
    intro g cw hcw
    by_cases hw : (lookupGroup gs w.gid).isSome
    · simp only [closeSweep, hw, if_true] at h
      exact ih gs h g cw hcw
    · rw [Option.not_isSome_iff_eq_none] at hw
      simp only [closeSweep, hw, Option.isSome_none, Bool.false_eq_true,
        if_false, fulfill_eq_of_none gs w none true hw] at h
      rcases ih _ h g cw hcw with hin | hc
      · rcases eq_or_ne g w.gid with rfl | hne
        · rw [lookupGroup_setGroup_self] at hin
          cases hin
          exact Or.inr (commitWish_closed w none true)
        · rw [lookupGroup_setGroup_ne gs w.gid g _ hne] at hin
          exact Or.inl hin
      · exact Or.inr hc

theorem push_cap {α : Type} (rb : RingBuffer α) (v : Option α)
    (rb' : RingBuffer α) (h : rb.push v = .ok rb') : rb'.cap = rb.cap := by
  unfold RingBuffer.push at h
  by_cases hl : rb.len = rb.buf.length
  · rw [if_pos hl] at h; cases h
  · rw [if_neg hl] at h
    cases h
    simp [RingBuffer.cap]

theorem pop_cap {α : Type} (rb : RingBuffer α) (v : Option α)
    (rb' : RingBuffer α) (h : rb.pop = .ok (v, rb')) : rb'.cap = rb.cap := by
  unfold RingBuffer.pop at h
  by_cases hl : rb.len = 0
  · rw [if_pos hl] at h; cases h
  · rw [if_neg hl] at h
    simp only [Except.ok.injEq, Prod.mk.injEq] at h
    rw [← h.2]
    simp [RingBuffer.cap]

/-! ## The claims -/

/-- C10: `Chan(buflen)` accepts any `buflen ≤ 0`, including negative
values, and builds an unbuffered open channel with empty queues (the
constructor is total — nothing raises); an internal ring buffer exists if
and only if `buflen > 0`, in which case it has `buflen` cleared slots. -/
theorem C10_chanInit (α : Type) :
    ∀ (cid : Nat) (b : Int),
      ((chanInit α cid b).buf = none ↔ b ≤ 0) ∧
      (chanInit α cid b).closed = false ∧
      (chanInit α cid b).waitingProducers = [] ∧
      (chanInit α cid b).waitingConsumers = [] ∧
      ((chanInit α cid b).buf.map (fun rb => (rb.cap, rb.len)) =
        if b > 0 then some (b.toNat, 0) else none) := by
  intro cid b
  by_cases hb : b > 0
  · simp [chanInit, hb, RingBuffer.cap]
  · simp [chanInit, hb]
    omega

/-- C7: the `closed` property is true exactly when the `_closed` flag is
set and the waiting-sender queue is empty; in particular a closed channel
that still holds enqueued send wishes reports `closed` as false. -/
theorem C7_closedProp (α : Type) :
    (∀ st : ChanState α,
      closedProp st = true ↔ st.closed = true ∧ st.waitingProducers = []) ∧
    (∀ st : ChanState α, st.closed = true → st.waitingProducers ≠ [] →
      closedProp st = false) := by
  constructor
  · intro st
    simp [closedProp, List.isEmpty_iff]
  · intro st hc hne
    simp [closedProp, List.isEmpty_iff, hc, hne]

/-- C7 witness: a closed channel with one enqueued send wish reports
`closed` as false. -/
theorem C7_closedProp_witness :
    closedProp (⟨0, true, none, [⟨10, 100, 0, .produce (some 7), false⟩],
      []⟩ : ChanState Int) = false :=
  (C7_closedProp Int).2 _ rfl (by simp)

/-- C8: for the ring buffer (well-formed, hence of capacity at least 1):
`push` fails exactly on a full buffer and otherwise appends to the
abstract FIFO contents; `pop` fails exactly on an empty buffer and
otherwise yields the oldest value, drops it from the abstract contents and
clears the popped slot; capacity is preserved and the length stays within
`[0, capacity]`. -/
theorem C8_ringBuffer (α : Type) :
    (∀ (rb : RingBuffer α) (v : Option α),
      (∃ e, rb.push v = .error e) ↔ rb.len = rb.cap) ∧
    (∀ rb : RingBuffer α, (∃ e, rb.pop = .error e) ↔ rb.len = 0) ∧
    (∀ (rb : RingBuffer α) (v : Option α) (rb' : RingBuffer α),
      rb.wf → rb.push v = .ok rb' →
      rb'.toList = rb.toList ++ [v] ∧ rb'.wf ∧ rb'.cap = rb.cap ∧
        rb'.len = rb.len + 1 ∧ rb'.len ≤ rb'.cap) ∧
    (∀ (rb : RingBuffer α) (v : Option α) (rb' : RingBuffer α),
      rb.wf → rb.pop = .ok (v, rb') →
      v = rb.toList.getD 0 none ∧ rb'.toList = rb.toList.drop 1 ∧
        rb'.wf ∧ rb'.cap = rb.cap ∧ rb'.len = rb.len - 1 ∧
        rb'.buf.getD rb.next_pop none = none) ∧
    (∀ rb : RingBuffer α, rb.wf → rb.len ≤ rb.cap) := by
  refine ⟨?_, ?_, ?_, ?_, ?_⟩
  · intro rb v
    constructor
    · rintro ⟨e, he⟩
      by_cases hl : rb.len = rb.buf.length
      · exact hl
      · rw [push_eq_of_ne rb v hl] at he; cases he
    · intro hl
      unfold RingBuffer.cap at hl
      exact ⟨.indexError, by rw [RingBuffer.push, if_pos hl]⟩
  · intro rb
    constructor
    · rintro ⟨e, he⟩
      by_cases hl : rb.len = 0
      · exact hl
      · rw [pop_eq_of_ne_zero rb hl] at he; cases he
    · intro hl
      exact ⟨.indexError, by rw [RingBuffer.pop, if_pos hl]⟩
  · intro rb v rb' hwf hpush
    obtain ⟨h1, h2, h3, h4⟩ := toList_push rb v rb' hwf hpush
    have hcap := push_cap rb v rb' hpush
    refine ⟨h1, h2, hcap, h3, ?_⟩
    exact h2.2
  · intro rb v rb' hwf hpop
    obtain ⟨h1, h2, h3, h4, h5⟩ := toList_pop rb v rb' hwf hpop
    exact ⟨h1, h2, h3, pop_cap rb v rb' hpop, h4, h5⟩
  · intro rb hwf
    exact hwf.2

/-- C8 witness: `C8_ringBuffer` applied to the concrete capacity-2 buffer
`[7]`: pushing appends, popping yields the oldest, an empty pop fails. -/
theorem C8_ringBuffer_witness :
    (∃ e, RingBuffer.pop (⟨[none, none], 0, 0⟩ : RingBuffer Int) = .error e) ∧
    ((⟨[some 7, none], 0, 1⟩ : RingBuffer Int).push (some 8) =
        .ok ⟨[some 7, some 8], 0, 2⟩ →
      (⟨[some 7, some 8], 0, 2⟩ : RingBuffer Int).toList =
        (⟨[some 7, none], 0, 1⟩ : RingBuffer Int).toList ++ [some 8]) := by
  constructor
  · exact ((C8_ringBuffer Int).2.1 _).mpr rfl
  · intro hp
    exact ((C8_ringBuffer Int).2.2.1 _ (some 8) _ (by decide) hp).1

/-- C4: `close()` on an open channel marks it closed and, for every wish
waiting in either queue whose group is uncommitted at close time, commits
that wish's group with the closed flag set; `close()` on an already-closed
channel fails with the fatal `doubleClose` error, an error distinct from
the recoverable `chanClosed` and `timeout` outcomes. -/
theorem C4_close (α : Type) :
    (∀ (st : ChanState α) (gs : Groups α), st.closed = true →
      closeChan st gs = (.error .doubleClose, st, gs)) ∧
    (∀ (st : ChanState α) (gs : Groups α), st.closed = false →
      (closeChan st gs).1 = .ok () ∧
      (closeChan st gs).2.1.closed = true ∧
      (∀ w ∈ st.waitingProducers ++ st.waitingConsumers,
        lookupGroup gs w.gid = none →
        ∃ cw, lookupGroup (closeChan st gs).2.2 w.gid = some cw ∧
          cw.closed = true)) ∧
    (Err.doubleClose ≠ Err.timeout ∧ ∀ c, Err.doubleClose ≠ Err.chanClosed c) := by
  refine ⟨?_, ?_, by decide, fun c => by simp⟩
  · intro st gs h
    simp [closeChan, h]
  · intro st gs h
    obtain ⟨gs', hsweep⟩ :=
      closeSweep_ok (st.waitingProducers ++ st.waitingConsumers) gs
    refine ⟨by simp [closeChan, h, hsweep], by simp [closeChan, h, hsweep], ?_⟩
    intro w hw hlive
    have hres : (closeChan st gs).2.2 = gs' := by simp [closeChan, h, hsweep]
    rw [hres]
    have hsome := closeSweep_isSome _ gs gs' hsweep w hw
    obtain ⟨cw, hcw⟩ := Option.isSome_iff_exists.mp hsome
    refine ⟨cw, hcw, ?_⟩
    rcases closeSweep_closed _ gs gs' hsweep w.gid cw hcw with hin | hc
    · rw [hlive] at hin; cases hin
    · exact hc

/-- C4 witness: closing an open channel with one live waiting sender
commits it with the closed flag; closing it again is `doubleClose`. -/
theorem C4_close_witness :
    ((closeChan (⟨0, false, none, [⟨10, 100, 0, .produce (some 7), false⟩],
        []⟩ : ChanState Int) []).1 = .ok () ∧
      ∃ cw, lookupGroup (closeChan (⟨0, false, none,
        [⟨10, 100, 0, .produce (some 7), false⟩], []⟩ : ChanState Int)
          []).2.2 100 = some cw ∧ cw.closed = true) ∧
    closeChan (⟨0, true, none, [], []⟩ : ChanState Int) [] =
      (.error .doubleClose, ⟨0, true, none, [], []⟩, []) := by
  constructor
  · obtain ⟨h1, h2, h3⟩ := (C4_close Int).2.1
      (⟨0, false, none, [⟨10, 100, 0, .produce (some 7), false⟩], []⟩ :
        ChanState Int) [] rfl
    exact ⟨h1, h3 ⟨10, 100, 0, .produce (some 7), false⟩ (by simp) rfl⟩
  · exact (C4_close Int).1 (⟨0, true, none, [], []⟩ : ChanState Int) [] rfl

/-- C6: `Wish.fulfill` on an already-committed group is the fatal
assertion failure; no commit path (`_get_nowait`, `_put_nowait`, the
`close` sweep) ever triggers it, because each checks the group under its
lock before fulfilling; and every already-recorded commitment is preserved
by every commit path — the first commit of a group wins, so at most one
wish per group is ever committed. -/
theorem C6_commit_exclusion (α : Type) :
    (∀ (gs : Groups α) (w : Wish α) (v : Option α) (c : Bool),
      (lookupGroup gs w.gid).isSome → fulfill gs w v c = .error .assertFail) ∧
    (∀ (st : ChanState α) (gs : Groups α),
      (getNowait st gs).1 ≠ .error .assertFail) ∧
    (∀ (st : ChanState α) (gs : Groups α) (v : Option α),
      (putNowait st gs v).1 ≠ .error .assertFail) ∧
    (∀ (st : ChanState α) (gs : Groups α),
      (closeChan st gs).1 ≠ .error .assertFail) ∧
    (∀ (st : ChanState α) (gs : Groups α) (g : Nat) (cw : Wish α),
      lookupGroup gs g = some cw →
      lookupGroup (getNowait st gs).2.2 g = some cw ∧
      (∀ v, lookupGroup (putNowait st gs v).2.2 g = some cw) ∧
      lookupGroup (closeChan st gs).2.2 g = some cw) := by
  refine ⟨fulfill_eq_of_some, ?_, ?_, ?_, ?_⟩
  · intro st gs h
    rcases getNowait_error st gs _ h with h' | h' <;> cases h'
  · intro st gs v h
    cases putNowait_error st gs v _ h
  · intro st gs h
    by_cases hc : st.closed = true
    · simp [closeChan, hc] at h
    · rw [Bool.not_eq_true] at hc
      obtain ⟨gs', hsweep⟩ :=
        closeSweep_ok (st.waitingProducers ++ st.waitingConsumers) gs
      simp [closeChan, hc, hsweep] at h
  · intro st gs g cw hcw
    refine ⟨getNowait_preserves st gs g cw hcw,
      fun v => putNowait_preserves st gs v g cw hcw, ?_⟩
    by_cases hc : st.closed = true
    · simp [closeChan, hc]
      exact hcw
    · rw [Bool.not_eq_true] at hc
      obtain ⟨gs', hsweep⟩ :=
        closeSweep_ok (st.waitingProducers ++ st.waitingConsumers) gs
      simp [closeChan, hc, hsweep]
      exact closeSweep_preserves _ gs gs' hsweep g cw hcw

/-- C6 witness: fulfilling a wish of an already-committed group asserts;
a `_get_nowait` over a dead wish discards it rather than asserting, and
the recorded commitment survives. -/
theorem C6_commit_exclusion_witness :
    (fulfill [(100, ⟨10, 100, 0, .produce (some 7), true⟩)]
      (⟨10, 100, 0, .produce (some 7), false⟩ : Wish Int) none false =
        .error .assertFail) ∧
    ((getNowait (⟨0, false, none, [⟨10, 100, 0, .produce (some 7), false⟩],
        []⟩ : ChanState Int)
        [(100, ⟨10, 100, 0, .produce (some 7), true⟩)]).1 ≠
      .error .assertFail) ∧
    lookupGroup (getNowait (⟨0, false, none,
        [⟨10, 100, 0, .produce (some 7), false⟩], []⟩ : ChanState Int)
        [(100, ⟨10, 100, 0, .produce (some 7), true⟩)]).2.2 100 =
      some ⟨10, 100, 0, .produce (some 7), true⟩ := by
  refine ⟨(C6_commit_exclusion Int).1 _ _ none false (by decide),
    (C6_commit_exclusion Int).2.1 _ _, ?_⟩
  exact ((C6_commit_exclusion Int).2.2.2.2 _ _ 100 _ (by decide)).1

theorem getNowait_nonempty_ne_empty {α : Type} (st : ChanState α)
    (gs : Groups α) (rb : RingBuffer α) (hb : st.buf = some rb)
    (he : rb.isEmpty = false) : (getNowait st gs).1 ≠ .error .empty := by
  rw [getNowait_buf_nonempty st gs rb hb he]
  have hlen : rb.len ≠ 0 := by simpa [RingBuffer.isEmpty] using he
  rw [pop_eq_of_ne_zero rb hlen]
  dsimp only
  rcases hf : fwp st.waitingProducers gs with ⟨r, ps', gs'⟩
  rcases r with e'' | produced
  · have he'' : e'' = .empty :=
      fwp_error st.waitingProducers gs e'' (by rw [hf])
    subst he''
    simp
  · dsimp only
    rcases hpu : RingBuffer.push _ produced with e₃ | rb''
    · have h₃ : e₃ = .indexError := push_error _ produced e₃ hpu
      subst h₃
      simp
    · simp

/-- Reduction of the outcome tag of `getPhase1`. -/
theorem getPhase1_fst {α : Type} (st : ChanState α) (gs : Groups α)
    (t : Option Int) (gid wid : Nat) :
    (getPhase1 st gs t gid wid).1 =
      match (getNowait st gs).1 with
      | .ok v => .done v
      | .error .empty =>
        if (getNowait st gs).2.1.closed then
          .errClosed (getNowait st gs).2.1.cid
        else if timeoutNonPos t then .errTimeout
        else .blocked ⟨wid, gid, (getNowait st gs).2.1.cid, .consume none,
          false⟩
      | .error e => .errOther e := by
  unfold getPhase1
  rcases hg : getNowait st gs with ⟨r, st', gs'⟩
  rcases r with e | v
  · rcases e with _ | _ | c | _ | _ | _ | _ | _ | _
    case empty =>
      by_cases hc : st'.closed = true <;>
        by_cases ht : timeoutNonPos t = true <;> simp [hc, ht]
    all_goals rfl
  · rfl

/-- C5: `put` on a closed channel fails `ChanClosed` at once — before any
attempt to hand the value to a waiting receiver or the buffer — so it
fails even when a receiver waits or buffer space exists; `get` fails
`ChanClosed` exactly when the channel is closed and `_get_nowait` reports
`Empty`; and `_get_nowait` reports `Empty` exactly when the buffer is
absent or empty and no waiting sender with an uncommitted group exists. -/
theorem C5_closed_failures (α : Type) :
    (∀ (st : ChanState α) (gs : Groups α) (v : Option α) (t : Option Int)
        (gid wid : Nat), st.closed = true →
      (putPhase1 st gs v t gid wid).1 = .errClosed st.cid) ∧
    (∀ (st : ChanState α) (gs : Groups α) (t : Option Int) (gid wid : Nat),
      (getPhase1 st gs t gid wid).1 = .errClosed st.cid ↔
        st.closed = true ∧ (getNowait st gs).1 = .error .empty) ∧
    (∀ (st : ChanState α) (gs : Groups α),
      (getNowait st gs).1 = .error .empty ↔
        ((∀ rb, st.buf = some rb → rb.len = 0) ∧
          ∀ w ∈ st.waitingProducers, (lookupGroup gs w.gid).isSome)) := by
  refine ⟨?_, ?_, ?_⟩
  · intro st gs v t gid wid h
    simp [putPhase1, h]
  · intro st gs t gid wid
    rw [getPhase1_fst, (getNowait_cid_closed st gs).1,
      (getNowait_cid_closed st gs).2]
    rcases hr : (getNowait st gs).1 with e | v
    · rcases e with _ | _ | c | _ | _ | _ | _ | _ | _
      case empty =>
        by_cases hc : st.closed = true
        · simp [hc]
        · rw [Bool.not_eq_true] at hc
          by_cases ht : timeoutNonPos t = true <;> simp [hc, ht]
      all_goals simp
    · simp
  · intro st gs
    constructor
    · intro h
      rcases hb : st.buf with _ | rb
      · rw [getNowait_buf_none st gs hb] at h
        refine ⟨?_, (fwp_empty_iff _ _).mp h⟩
        intro rb' hrb'
        cases hrb'
      · by_cases he : rb.isEmpty = true
        · rw [getNowait_buf_empty st gs rb hb he] at h
          refine ⟨?_, (fwp_empty_iff _ _).mp h⟩
          intro rb' hrb'
          injection hrb' with heq
          rw [← heq]
          simpa [RingBuffer.isEmpty] using he
        · rw [Bool.not_eq_true] at he
          exact absurd h (getNowait_nonempty_ne_empty st gs rb hb he)
    · rintro ⟨hbuf, hdead⟩
      rcases hb : st.buf with _ | rb
      · rw [getNowait_buf_none st gs hb]
        exact (fwp_empty_iff _ _).mpr hdead
      · have hlen : rb.len = 0 := hbuf rb hb
        have he : rb.isEmpty = true := by simp [RingBuffer.isEmpty, hlen]
        rw [getNowait_buf_empty st gs rb hb he]
        exact (fwp_empty_iff _ _).mpr hdead

/-- C5 witness: a closed channel with a waiting receiver still refuses a
`put`; a closed channel holding a live waiting sender does not raise
`ChanClosed` on `get` (the sender is drained first), while the same
channel with the sender group already committed does. -/
theorem C5_closed_failures_witness :
    ((putPhase1 (⟨0, true, none, [],
        [⟨20, 200, 0, .consume none, false⟩]⟩ : ChanState Int) []
        (some 7) none 300 30).1 = .errClosed 0) ∧
    ¬ ((getPhase1 (⟨0, true, none, [⟨10, 100, 0, .produce (some 7), false⟩],
        []⟩ : ChanState Int) [] none 300 30).1 = .errClosed 0) ∧
    ((getPhase1 (⟨0, true, none, [⟨10, 100, 0, .produce (some 7), false⟩],
        []⟩ : ChanState Int) [(100, ⟨10, 100, 0, .produce (some 7), true⟩)]
        none 300 30).1 = .errClosed 0) := by
  refine ⟨(C5_closed_failures Int).1 _ [] (some 7) none 300 30 rfl, ?_, ?_⟩
  · intro hc
    obtain ⟨-, hemp⟩ := ((C5_closed_failures Int).2.1 _ [] none 300 30).mp hc
    obtain ⟨-, hdead⟩ := ((C5_closed_failures Int).2.2 _ []).mp hemp
    have := hdead ⟨10, 100, 0, .produce (some 7), false⟩ (by simp)
    simp [lookupGroup] at this
  · refine ((C5_closed_failures Int).2.1 _ _ none 300 30).mpr ⟨rfl, ?_⟩
    refine ((C5_closed_failures Int).2.2 _ _).mpr ⟨(fun rb hrb => by cases hrb), ?_⟩
    intro w hw
    simp at hw
    subst hw
    decide

/-- C2: `_get_nowait` with a non-empty buffer pops and returns the oldest
buffered value and, when a live waiting sender exists, commits the first
live one (discarding the dead prefix) and pushes its value into the freed
slot, so the abstract buffer contents become `old.drop 1 ++ [sender's
value]` — FIFO order between buffered values and waiting senders; with the
buffer absent or empty it commits and returns the first live waiting
sender, discarding dead wishes from the head, and reports `Empty`
(draining the dead queue) when no live sender exists. -/
theorem C2_getNowait (α : Type) :
    (∀ (st : ChanState α) (gs : Groups α),
      (st.buf = none ∨ ∃ rb, st.buf = some rb ∧ rb.len = 0) →
      (∀ w ∈ st.waitingProducers, (lookupGroup gs w.gid).isSome) →
      getNowait st gs =
        (.error .empty, { st with waitingProducers := [] }, gs)) ∧
    (∀ (st : ChanState α) (gs : Groups α) (d : List (Wish α)) (w : Wish α)
        (rest : List (Wish α)),
      (st.buf = none ∨ ∃ rb, st.buf = some rb ∧ rb.len = 0) →
      st.waitingProducers = d ++ w :: rest →
      (∀ u ∈ d, (lookupGroup gs u.gid).isSome) →
      lookupGroup gs w.gid = none →
      getNowait st gs = (.ok (fulfillRet w),
        { st with waitingProducers := rest },
        setGroup gs w.gid (commitWish w none false))) ∧
    (∀ (st : ChanState α) (gs : Groups α) (rb : RingBuffer α),
      st.buf = some rb → rb.wf → rb.len ≠ 0 →
      (∀ w ∈ st.waitingProducers, (lookupGroup gs w.gid).isSome) →
      ∃ rb', (getNowait st gs).1 = .ok (rb.toList.getD 0 none) ∧
        (getNowait st gs).2.1.buf = some rb' ∧
        rb'.toList = rb.toList.drop 1 ∧
        (getNowait st gs).2.1.waitingProducers = [] ∧
        (getNowait st gs).2.2 = gs) ∧
    (∀ (st : ChanState α) (gs : Groups α) (rb : RingBuffer α)
        (d : List (Wish α)) (w : Wish α) (rest : List (Wish α)),
      st.buf = some rb → rb.wf → rb.len ≠ 0 →
      st.waitingProducers = d ++ w :: rest →
      (∀ u ∈ d, (lookupGroup gs u.gid).isSome) →
      lookupGroup gs w.gid = none →
      ∃ rb', (getNowait st gs).1 = .ok (rb.toList.getD 0 none) ∧
        (getNowait st gs).2.1.buf = some rb' ∧
        rb'.toList = rb.toList.drop 1 ++ [fulfillRet w] ∧
        (getNowait st gs).2.1.waitingProducers = rest ∧
        (getNowait st gs).2.2 =
          setGroup gs w.gid (commitWish w none false)) := by
  refine ⟨?_, ?_, ?_, ?_⟩
  · intro st gs hbuf hdead
    have hred : getNowait st gs = ((fwp st.waitingProducers gs).1,
        { st with waitingProducers := (fwp st.waitingProducers gs).2.1 },
        (fwp st.waitingProducers gs).2.2) := by
      rcases hbuf with hb | ⟨rb, hb, hlen⟩
      · exact getNowait_buf_none st gs hb
      · exact getNowait_buf_empty st gs rb hb
          (by simp [RingBuffer.isEmpty, hlen])
    rw [hred, fwp_all_dead st.waitingProducers gs hdead]
  · intro st gs d w rest hbuf hq hdead hlive
    have hred : getNowait st gs = ((fwp st.waitingProducers gs).1,
        { st with waitingProducers := (fwp st.waitingProducers gs).2.1 },
        (fwp st.waitingProducers gs).2.2) := by
      rcases hbuf with hb | ⟨rb, hb, hlen⟩
      · exact getNowait_buf_none st gs hb
      · exact getNowait_buf_empty st gs rb hb
          (by simp [RingBuffer.isEmpty, hlen])
    rw [hred, hq, fwp_commit d w rest gs hdead hlive]
  · intro st gs rb hb hwf hlen hdead
    have he : rb.isEmpty = false := by simp [RingBuffer.isEmpty, hlen]
    have hpop := pop_eq_of_ne_zero rb hlen
    obtain ⟨hv, hdrop, hwf', hlen', hclear⟩ :=
      toList_pop rb _ _ hwf hpop
    rw [getNowait_buf_nonempty st gs rb hb he, hpop,
      fwp_all_dead st.waitingProducers gs hdead]
    dsimp only
    refine ⟨_, ?_, rfl, hdrop, rfl, rfl⟩
    rw [hv]
  · intro st gs rb d w rest hb hwf hlen hq hdead hlive
    have he : rb.isEmpty = false := by simp [RingBuffer.isEmpty, hlen]
    have hpop := pop_eq_of_ne_zero rb hlen
    obtain ⟨hv, hdrop, hwf', hlen', hclear⟩ :=
      toList_pop rb _ _ hwf hpop
    obtain ⟨hnp, hle⟩ := hwf
    have hne1 : ({ rb with
        buf := rb.buf.set rb.next_pop none,
        next_pop := (rb.next_pop + 1) % rb.buf.length,
        len := rb.len - 1 } : RingBuffer α).len ≠ ({ rb with
        buf := rb.buf.set rb.next_pop none,
        next_pop := (rb.next_pop + 1) % rb.buf.length,
        len := rb.len - 1 } : RingBuffer α).buf.length := by
      show rb.len - 1 ≠ (rb.buf.set rb.next_pop none).length
      rw [List.length_set]
      omega
    have hpush := push_eq_of_ne _ (fulfillRet w) hne1
    obtain ⟨htl2, hwf2, hlen2, hnp2⟩ := toList_push _ (fulfillRet w) _ hwf' hpush
    rw [getNowait_buf_nonempty st gs rb hb he, hpop]
    dsimp only
    rw [hq, fwp_commit d w rest gs hdead hlive]
    dsimp only
    rw [hpush]
    dsimp only
    refine ⟨_, ?_, rfl, ?_, rfl, rfl⟩
    · rw [hv]
    · rw [htl2, hdrop]

/-- C2 witness: a channel buffering `5` whose waiting-sender queue holds a
dead wish (group 100 committed) followed by a live sender of `7`:
`_get_nowait` returns `5`, drops the dead wish, commits the live sender
and cycles `7` into the buffer; the unbuffered all-dead queue case reports
`Empty` and drains the queue. -/
theorem C2_getNowait_witness :
    ((getNowait (⟨0, false, some ⟨[some 5, none], 0, 1⟩,
        [⟨10, 100, 0, .produce (some 6), false⟩,
         ⟨11, 101, 0, .produce (some 7), false⟩], []⟩ : ChanState Int)
        [(100, ⟨10, 100, 0, .produce (some 6), true⟩)]).1 = .ok (some 5) ∧
      (∃ rb', (getNowait (⟨0, false, some ⟨[some 5, none], 0, 1⟩,
        [⟨10, 100, 0, .produce (some 6), false⟩,
         ⟨11, 101, 0, .produce (some 7), false⟩], []⟩ : ChanState Int)
        [(100, ⟨10, 100, 0, .produce (some 6), true⟩)]).2.1.buf = some rb'
          ∧ rb'.toList = [some 7])) ∧
    getNowait (⟨0, false, none, [⟨10, 100, 0, .produce (some 6), false⟩],
        []⟩ : ChanState Int)
        [(100, ⟨10, 100, 0, .produce (some 6), true⟩)] =
      (.error .empty, ⟨0, false, none, [], []⟩,
        [(100, ⟨10, 100, 0, .produce (some 6), true⟩)]) := by
  constructor
  · obtain ⟨rb', h1, h2, h3, h4, h5⟩ := (C2_getNowait Int).2.2.2
      (⟨0, false, some ⟨[some 5, none], 0, 1⟩,
        [⟨10, 100, 0, .produce (some 6), false⟩,
         ⟨11, 101, 0, .produce (some 7), false⟩], []⟩ : ChanState Int)
      [(100, ⟨10, 100, 0, .produce (some 6), true⟩)]
      ⟨[some 5, none], 0, 1⟩
      [⟨10, 100, 0, .produce (some 6), false⟩]
      ⟨11, 101, 0, .produce (some 7), false⟩ []
      rfl (by decide) (by decide) rfl (by decide) (by decide)
    refine ⟨?_, rb', h2, ?_⟩
    · rw [h1]
      rfl
    · rw [h3]
      rfl
  · exact (C2_getNowait Int).1
      (⟨0, false, none, [⟨10, 100, 0, .produce (some 6), false⟩],
        []⟩ : ChanState Int)
      [(100, ⟨10, 100, 0, .produce (some 6), true⟩)]
      (Or.inl rfl) (by decide)

theorem lookupChan_cid {α : Type} (cm : List (ChanState α)) (c : Nat)
    (st : ChanState α) (h : lookupChan cm c = some st) : st.cid = c := by
  have := List.find?_some h
  simpa using this

theorem lookupChan_updateChan {α : Type} (cm : List (ChanState α))
    (st' : ChanState α) (c : Nat) :
    lookupChan (updateChan cm st') c =
      (lookupChan cm c).map (fun s => if s.cid == st'.cid then st' else s) := by
  induction cm with
  | nil => rfl
  | cons h t ih =>
    simp only [updateChan, List.map_cons] at *
    by_cases h1 : (h.cid == st'.cid) = true
    · have hcid : h.cid = st'.cid := by simpa using h1
      by_cases h2 : (h.cid == c) = true
      · have h2' : (st'.cid == c) = true := by rw [← hcid]; exact h2
        simp [lookupChan, List.find?, h1, h2, h2', hcid]
      · have h2' : (st'.cid == c) = false := by rw [← hcid]; simpa using h2
        simpa [lookupChan, List.find?, h1, h2, h2'] using ih
    · by_cases h2 : (h.cid == c) = true
      · simp [lookupChan, List.find?, h1, h2]
        rw [if_neg (by simpa using h1)]
      · simpa [lookupChan, List.find?, h1, h2] using ih

/-- Any `ChanClosed(c)` raised by the first pass of `chanselect` names a
channel that is closed in the pre-state. -/
theorem chanselectPass_closed_sound {α : Type} (ws : List (Wish α)) :
    ∀ (cm : List (ChanState α)) (gs : Groups α) (c : Nat),
      (chanselectPass cm gs ws).1 = .error (.chanClosed c) →
      ∃ st, lookupChan cm c = some st ∧ st.closed = true := by
  induction ws with
  | nil =>
    intro cm gs c h
    cases h
  | cons w rest ih =>
    intro cm gs c h
    unfold chanselectPass at h
    rcases hlk : lookupChan cm w.cid with _ | st <;> rw [hlk] at h
    · cases h
    · by_cases hcl : st.closed = true
      · simp only [hcl, if_true] at h
        cases h
        exact ⟨st, hlk, hcl⟩
      · rw [Bool.not_eq_true] at hcl
        simp only [hcl, Bool.false_eq_true, if_false] at h
        have transfer : ∀ (st₁ : ChanState α) (gs₁ : Groups α),
            st₁.cid = st.cid → st₁.closed = st.closed →
            (chanselectPass (updateChan cm st₁) gs₁ rest).1 =
              .error (.chanClosed c) →
            ∃ s, lookupChan cm c = some s ∧ s.closed = true := by
          intro st₁ gs₁ hcid1 hcl1 hrec
          obtain ⟨st₂, hlk₂, hcl₂⟩ := ih (updateChan cm st₁) gs₁ c hrec
          have htrans := lookupChan_updateChan cm st₁ c
          rw [hlk₂] at htrans
          rcases hc0 : lookupChan cm c with _ | s₀ <;> rw [hc0] at htrans
          · cases htrans
          · simp only [Option.map_some'] at htrans
            by_cases hcond : (s₀.cid == st₁.cid) = true
            · rw [if_pos hcond] at htrans
              cases htrans
              rw [hcl1, hcl] at hcl₂
              cases hcl₂
            · rw [if_neg hcond] at htrans
              cases htrans
              exact ⟨st₂, rfl, hcl₂⟩
        rcases hk : w.kind with v | r <;> rw [hk] at h <;> dsimp only at h
        · rcases hg : putNowait st gs v with ⟨r2, st₁, gs₁⟩
          rw [hg] at h
          have hcc := putNowait_cid_closed st gs v
          rw [hg] at hcc
          rcases r2 with e | u
          · have he : e = .full := putNowait_error st gs v e (by rw [hg])
            subst he
            dsimp only at h
            exact transfer st₁ gs₁ hcc.1 hcc.2 h
          · dsimp only at h
            cases h
        · rcases hg : getNowait st gs with ⟨r2, st₁, gs₁⟩
          rw [hg] at h
          have hcc := getNowait_cid_closed st gs
          rw [hg] at hcc
          rcases r2 with e | v2
          · rcases getNowait_error st gs e (by rw [hg]) with he | he <;> subst he
            · dsimp only at h
              exact transfer st₁ gs₁ hcc.1 hcc.2 h
            · dsimp only at h
              cases h
          · dsimp only at h
            cases h

/-- C1 counterexample: two consume candidates, the first on an open
channel with a live waiting sender of `7`, the second on a **closed**
channel.  In this (post-shuffle) order the pass commits the first wish and
returns `(chan 0, 7)`: the call does not fail with `Closed` although a
candidate channel is closed when the locks are held, because the code
interleaves the closed check with the commit attempts in a single pass
rather than checking every wish for closure first. -/
theorem C1_counterexample :
    (chanselectPass
      [(⟨0, false, none, [⟨10, 100, 0, .produce (some 7), false⟩],
          []⟩ : ChanState Int),
        ⟨1, true, none, [], []⟩] []
      [⟨20, 200, 0, .consume none, false⟩,
        ⟨21, 200, 1, .consume none, false⟩]).1 = .ok (some (0, some 7)) ∧
    (lookupChan
      [(⟨0, false, none, [⟨10, 100, 0, .produce (some 7), false⟩],
          []⟩ : ChanState Int),
        ⟨1, true, none, [], []⟩] 1).map (fun st => st.closed) = some true :=
  ⟨rfl, rfl⟩

/-- C1 (amended): the closed check of `chanselect` is interleaved with the
commit attempts, one randomized-order pass: the call fails `Closed(which)`
when the closed channel's wish is reached before any wish can commit — in
particular a closed first wish raises `Closed` even if later candidates
are ready — and any `Closed(c)` it raises names a channel that is closed
at pass time; but a committable wish earlier in the order commits and
returns instead (see the counterexample). -/
theorem C1_select_closed (α : Type) :
    (∀ (cm : List (ChanState α)) (gs : Groups α) (w : Wish α)
        (rest : List (Wish α)) (st : ChanState α),
      lookupChan cm w.cid = some st → st.closed = true →
      chanselectPass cm gs (w :: rest) =
        (.error (.chanClosed w.cid), cm, gs)) ∧
    (∀ (cm : List (ChanState α)) (gs : Groups α) (ws : List (Wish α))
        (c : Nat),
      (chanselectPass cm gs ws).1 = .error (.chanClosed c) →
      ∃ st, lookupChan cm c = some st ∧ st.closed = true) := by
  constructor
  · intro cm gs w rest st hlk hcl
    unfold chanselectPass
    rw [hlk]
    dsimp only
    rw [hcl]
    rfl
  · intro cm gs ws c h
    exact chanselectPass_closed_sound ws cm gs c h

/-- C1 amended witness: with the closed channel's wish first in the order,
the pass raises `Closed(1)` even though the other candidate could commit. -/
theorem C1_select_closed_witness :
    chanselectPass
      [(⟨0, false, none, [⟨10, 100, 0, .produce (some 7), false⟩],
          []⟩ : ChanState Int),
        ⟨1, true, none, [], []⟩] []
      [⟨21, 200, 1, .consume none, false⟩,
        ⟨20, 200, 0, .consume none, false⟩] =
      (.error (.chanClosed 1),
        [(⟨0, false, none, [⟨10, 100, 0, .produce (some 7), false⟩],
            []⟩ : ChanState Int),
          ⟨1, true, none, [], []⟩], []) :=
  (C1_select_closed Int).1 _ _ ⟨21, 200, 1, .consume none, false⟩ _
    (⟨1, true, none, [], []⟩ : ChanState Int) rfl rfl

/-- C3: evaluation of the timeout paths.  `chanselect`'s sweep tolerates a
wish's absence (here: `Timeout` with the wish already gone) and respects a
commit that landed between the condvar wake and the sweep.  `Chan.get` and
`Chan.put` also respect a concurrent commit (third and fourth conjuncts)
and, with the wish still present, remove it and raise `Timeout` (fifth);
**but** when the wish is absent from the queue while its group is still
unfulfilled — a peer popped it under the channel lock and has not yet
committed it when the deadline check runs — their unguarded `list.remove`
raises `ValueError` instead of the `Timeout` the claim (and the spec's
"tolerate absence") requires: the first and last conjuncts exhibit the
divergence. -/
theorem C3_timeout_sweep :
    ((getDeadlineStep (⟨0, false, none, [], []⟩ : ChanState Int) []
        ⟨20, 200, 0, .consume none, false⟩).1 = .error .valueError) ∧
    (chanselectSweep [(⟨0, false, none, [], []⟩ : ChanState Int)] []
        [⟨20, 200, 0, .consume none, false⟩] 200 =
      (.error .timeout, [⟨0, false, none, [], []⟩])) ∧
    ((chanselectSweep [(⟨0, false, none, [], []⟩ : ChanState Int)]
        [(200, ⟨20, 200, 0, .consume (some 5), false⟩)]
        [⟨20, 200, 0, .consume none, false⟩] 200).1 = .ok (0, some 5)) ∧
    ((getDeadlineStep (⟨0, false, none, [], []⟩ : ChanState Int)
        [(200, ⟨20, 200, 0, .consume (some 5), false⟩)]
        ⟨20, 200, 0, .consume none, false⟩).1 = .ok (some 5)) ∧
    ((putDeadlineStep (⟨0, false, none, [], []⟩ : ChanState Int)
        [(200, ⟨20, 200, 0, .produce (some 5), true⟩)]
        ⟨20, 200, 0, .produce (some 5), false⟩).1 =
      .error (.chanClosed 0)) ∧
    (getDeadlineStep (⟨0, false, none, [],
        [⟨20, 200, 0, .consume none, false⟩]⟩ : ChanState Int) []
        ⟨20, 200, 0, .consume none, false⟩ =
      (.error .timeout, ⟨0, false, none, [], []⟩)) ∧
    ((putDeadlineStep (⟨0, false, none, [], []⟩ : ChanState Int) []
        ⟨20, 200, 0, .produce (some 5), false⟩).1 = .error .valueError) :=
  ⟨rfl, rfl, rfl, rfl, rfl, rfl, rfl⟩

/-- C9: close a channel while a sender is blocked on it (its produce wish
of value `v` is enqueued, its group uncommitted): `close` succeeds, the
wish's group is committed with the closed flag, so the blocked `put` call
exits its wait with `ChanClosed`; the buffer is untouched by `close`, and
the group's record never changes under any later `_get_nowait`, so the
wish can never be committed again as a live delivery — its value is never
handed to a receiver. -/
theorem C9_close_blocked_sender (α : Type) :
    ∀ (st : ChanState α) (gs : Groups α) (w : Wish α) (v : Option α),
      st.closed = false → w ∈ st.waitingProducers → w.kind = .produce v →
      lookupGroup gs w.gid = none →
      (closeChan st gs).1 = .ok () ∧
      (closeChan st gs).2.1.buf = st.buf ∧
      ∃ cw, lookupGroup (closeChan st gs).2.2 w.gid = some cw ∧
        cw.closed = true ∧
        putWaitExit (closeChan st gs).2.2 w = .error (.chanClosed w.cid) ∧
        (∀ (st2 : ChanState α) (gs2 : Groups α),
          lookupGroup gs2 w.gid = some cw →
          lookupGroup (getNowait st2 gs2).2.2 w.gid = some cw) := by
  intro st gs w v hcl hmem hkind hlive
  obtain ⟨gs', hsweep⟩ :=
    closeSweep_ok (st.waitingProducers ++ st.waitingConsumers) gs
  have hres2 : (closeChan st gs).2.2 = gs' := by simp [closeChan, hcl, hsweep]
  have hw : w ∈ st.waitingProducers ++ st.waitingConsumers := by
    simp [hmem]
  have hsome := closeSweep_isSome _ gs gs' hsweep w hw
  obtain ⟨cw, hcw⟩ := Option.isSome_iff_exists.mp hsome
  have hclosed : cw.closed = true := by
    rcases closeSweep_closed _ gs gs' hsweep w.gid cw hcw with hin | hc
    · rw [hlive] at hin; cases hin
    · exact hc
  refine ⟨by simp [closeChan, hcl, hsweep], by simp [closeChan, hcl, hsweep],
    cw, by rw [hres2]; exact hcw, hclosed, ?_, ?_⟩
  · rw [hres2]
    unfold putWaitExit
    rw [hcw]
    dsimp only
    rw [if_pos hclosed]
  · intro st2 gs2 h2
    exact getNowait_preserves st2 gs2 w.gid cw h2

/-- C9 witness: closing a channel on which a sender of `7` is blocked —
the sender's group is committed closed, its `put` exits with `ChanClosed`,
and the record survives a subsequent `_get_nowait`. -/
theorem C9_close_blocked_sender_witness :
    (closeChan (⟨0, false, none, [⟨10, 100, 0, .produce (some 7), false⟩],
        []⟩ : ChanState Int) []).1 = .ok () ∧
    (closeChan (⟨0, false, none, [⟨10, 100, 0, .produce (some 7), false⟩],
        []⟩ : ChanState Int) []).2.1.buf = none ∧
    ∃ cw, lookupGroup (closeChan (⟨0, false, none,
        [⟨10, 100, 0, .produce (some 7), false⟩], []⟩ : ChanState Int)
        []).2.2 100 = some cw ∧
      cw.closed = true ∧
      putWaitExit (closeChan (⟨0, false, none,
          [⟨10, 100, 0, .produce (some 7), false⟩], []⟩ : ChanState Int)
          []).2.2 ⟨10, 100, 0, .produce (some 7), false⟩ =
        .error (.chanClosed 0) ∧
      (∀ (st2 : ChanState Int) (gs2 : Groups Int),
        lookupGroup gs2 100 = some cw →
        lookupGroup (getNowait st2 gs2).2.2 100 = some cw) :=
  C9_close_blocked_sender Int
    (⟨0, false, none, [⟨10, 100, 0, .produce (some 7), false⟩], []⟩ :
      ChanState Int) []
    ⟨10, 100, 0, .produce (some 7), false⟩ (some 7)
    rfl (by simp) rfl (by decide)

end Chan
